import Mathlib

/-!
Shallow embedding of the `user_extension` plugin:
`management/commands/approve_id_verification.py` (the management command) and
`signals/handlers.py` (the registration hooks), together with proofs of the
behavioural properties claimed for them.

Modelling conventions:
* The relational store is a `DB` value: the `auth_user` table as a list of
  rows in the order the database enumerates them, the `ManualVerification`
  table as a list of rows in insertion order, and the `ExtendedUserProfile`
  table as the list of user ids it references.
* `earliest_allowed_verification_date()` is an opaque external policy; within
  one invocation it is a fixed value `DB.cutoff`.  A record freshly created by
  `ManualVerification.objects.create` gets `created_at = DB.now`.
* Each `self.stdout.write(...)` call site becomes one constructor of `Out`
  carrying the interpolated arguments; `Out.style` records the style wrapper
  used at that call site.  Likewise each `log.info`/`log.error` call site
  becomes a constructor of `LogLine`.
* A database insert may raise.  This nondeterminism is resolved by an oracle
  `failV : Nat → Option String` giving, per user id, the exception message the
  insert raises (or `none` when it succeeds).  The registration hook's query
  may also raise, resolved by an oracle `failQ : Option String`.
* A command entry point returns a `CmdResult`: the final database, the console
  output, the log lines, and `exn = some msg` when an uncaught exception with
  message `msg` escapes (the database, output and logs then reflect the state
  at the moment of the raise).
-/

/-- One row of the `ManualVerification` table: owning user id, `status`
string, and creation timestamp. -/
structure VerificationRecord where
  user_id : Nat
  status : String
  created_at : Nat
deriving DecidableEq

/-- One row of the `auth_user` table: unique numeric `id` and `username`. -/
structure UserRow where
  id : Nat
  username : String
deriving DecidableEq

/-- The persistent state both collaborators read and write.  `users` is listed
in the order the database enumerates rows of `auth_user` when no ordering is
requested; `cutoff` is the value of `earliest_allowed_verification_date()` for
this invocation; `now` is the `created_at` stamped on freshly created
verification records. -/
structure DB where
  users : List UserRow
  verifications : List VerificationRecord
  profiles : List Nat
  cutoff : Nat
  now : Nat
deriving DecidableEq

/-- The style wrapper applied at a `self.stdout.write` call site. -/
inductive Style where
  | success
  | warning
  | styleError
  | plain
deriving DecidableEq

/-- One console line, one constructor per `self.stdout.write` call site of
`approve_id_verification.py`, carrying the values interpolated there:
* `mustSpecify`: `ERROR("You must specify either --all or --username <username>")`
* `userDoesNotExist u`: `ERROR(f'User "{u}" does not exist')`
* `alreadyVerified u`: `WARNING(f'User "{u}" already has valid ID verification')`
* `dryRunWouldApprove u`: `SUCCESS(f"[DRY RUN] Would approve ID verification for: {u}")`
* `approvedFor u`: `SUCCESS(f"Approved ID verification for: {u}")`
* `noUsersNeed`: `SUCCESS("No users need ID verification approval")`
* `foundUsers n`: `WARNING(f"Found {n} users without valid ID verification")`
* `dryRunHeader n`: `SUCCESS(f"[DRY RUN] Would approve ID verification for {n} users")`
* `dashUser u`: `f"  - {u}"`
* `andMore n`: `f"  ... and {n} more"`
* `progress a t`: `f"Progress: {a}/{t} users processed"`
* `completed a e`: `SUCCESS(f"\nCompleted! Approved: {a}, Errors: {e}")` -/
inductive Out where
  | mustSpecify
  | userDoesNotExist (username : String)
  | alreadyVerified (username : String)
  | dryRunWouldApprove (username : String)
  | approvedFor (username : String)
  | noUsersNeed
  | foundUsers (n : Nat)
  | dryRunHeader (n : Nat)
  | dashUser (username : String)
  | andMore (n : Nat)
  | progress (approved total : Nat)
  | completed (approved errors : Nat)
deriving DecidableEq

/-- The style wrapper each console line is written with in the source. -/
def Out.style : Out → Style
  | .mustSpecify => .styleError
  | .userDoesNotExist _ => .styleError
  | .alreadyVerified _ => .warning
  | .dryRunWouldApprove _ => .success
  | .approvedFor _ => .success
  | .noUsersNeed => .success
  | .foundUsers _ => .warning
  | .dryRunHeader _ => .success
  | .dashUser _ => .plain
  | .andMore _ => .plain
  | .progress _ _ => .plain
  | .completed _ _ => .success

/-- Recognises the `Progress: {a}/{t} users processed` console lines. -/
def Out.isProgress : Out → Bool
  | .progress _ _ => true
  | _ => false

/-- Logging severity. -/
inductive Level where
  | info
  | levelError
deriving DecidableEq

/-- One log line, one constructor per `log.info`/`log.error` call site:
* `approvedFor u`: `log.info("ManualVerification approved for: %s", u)`
  (emitted both by the command and by the registration hook)
* `errorApproving u e`: `log.error("Error approving verification for %s: %s", u, e)`
* `errorSettingStatus u e`:
  `log.error("Error setting ID verification status for user %s: %s", u, e)` -/
inductive LogLine where
  | approvedFor (username : String)
  | errorApproving (username : String) (msg : String)
  | errorSettingStatus (username : String) (msg : String)
deriving DecidableEq

/-- The severity each log line is emitted at in the source. -/
def LogLine.level : LogLine → Level
  | .approvedFor _ => .info
  | .errorApproving _ _ => .levelError
  | .errorSettingStatus _ _ => .levelError

/-- The filter condition `status="approved", created_at__gte=earliest_date`
restricted to one user: `user=user, status="approved", created_at__gte=...`. -/
def validApproval (cutoff : Nat) (uid : Nat) (v : VerificationRecord) : Bool :=
  v.user_id == uid && v.status == "approved" && decide (cutoff ≤ v.created_at)

/-- `ManualVerification.objects.filter(user=user, status="approved",
created_at__gte=earliest_date).exists()`. -/
def existingVerification (db : DB) (uid : Nat) : Bool :=
  db.verifications.any (validApproval db.cutoff uid)

/-- `ManualVerification.objects.create(user=user, status="approved")`:
appends one approved record stamped `db.now`. -/
def insertApproval (db : DB) (uid : Nat) : DB :=
  { db with verifications := db.verifications ++ [⟨uid, "approved", db.now⟩] }

/-- Result of one command invocation: final database, console output, log
lines, and the message of the uncaught exception if one escaped. -/
structure CmdResult where
  db : DB
  out : List Out
  logs : List LogLine
  exn : Option String
deriving DecidableEq

/-- `Command._approve_user_verification(user, dry_run)`.  An exception from
`create` is not caught on this path and escapes. -/
def approveUserVerification (db : DB) (user : UserRow) (dryRun : Bool)
    (failV : Nat → Option String) : CmdResult :=
  if existingVerification db user.id then
    ⟨db, [Out.alreadyVerified user.username], [], none⟩
  else if dryRun then
    ⟨db, [Out.dryRunWouldApprove user.username], [], none⟩
  else
    match failV user.id with
    | some e => ⟨db, [], [], some e⟩
    | none =>
      ⟨insertApproval db user.id, [Out.approvedFor user.username],
        [LogLine.approvedFor user.username], none⟩

/-- `ManualVerification.objects.filter(status="approved",
created_at__gte=earliest_date).values_list("user_id", flat=True)`. -/
def usersWithVerification (db : DB) : List Nat :=
  (db.verifications.filter
    (fun v => v.status == "approved" && decide (db.cutoff ≤ v.created_at))).map
    (fun v => v.user_id)

/-- Insert a row into a list kept in ascending `id` order. -/
def insertById (u : UserRow) : List UserRow → List UserRow
  | [] => [u]
  | v :: vs => if u.id ≤ v.id then u :: v :: vs else v :: insertById u vs

/-- Sort rows by ascending `id`: the model of `.order_by("id")` (user ids are
unique, so any correct sort gives the same row order). -/
def sortById : List UserRow → List UserRow
  | [] => []
  | u :: us => insertById u (sortById us)

/-- `User.objects.exclude(id__in=users_with_verification).order_by("id")`. -/
def usersToApprove (db : DB) : List UserRow :=
  sortById (db.users.filter
    (fun u => !((usersWithVerification db).contains u.id)))

/-- The start offsets `range(0, stop, step)` for `step > 0`:
`[0, step, 2*step, ...)` below `stop`. -/
def pyRangeUp (stop : Nat) (s : Nat) : List Nat :=
  (List.range ((stop + s - 1) / s)).map (fun k => k * s)

/-- Python `range(0, stop, step)` for a natural `stop`: raises `ValueError`
when `step = 0`; empty when `step < 0` (counting down from 0 immediately
fails the `> stop ≥ 0` bound); ascending offsets otherwise. -/
def pyRange3 (stop : Nat) (step : Int) : Except String (List Nat) :=
  if step = 0 then .error "range() arg 3 must not be zero"
  else if step < 0 then .ok []
  else .ok (pyRangeUp stop step.toNat)

/-- `User.objects.filter(id__in=batch_ids)`: no ordering is requested, so the
rows come back in the database's enumeration order, i.e. the order of
`db.users`. -/
def batchUsers (db : DB) (batchIds : List Nat) : List UserRow :=
  db.users.filter (fun u => batchIds.contains u.id)

/-- The loop state of `_approve_all_users`: live database, the
`approved_count` and `error_count` counters, and the output/log lines
emitted so far. -/
structure BulkState where
  db : DB
  approved : Nat
  errors : Nat
  out : List Out
  logs : List LogLine
deriving DecidableEq

/-- The body of `for user in batch_users:` in `_approve_all_users`: attempt
the insert; on success bump `approved_count` and print progress at every
multiple of 50; on failure bump `error_count` and log the error. -/
def bulkStep (total : Nat) (failV : Nat → Option String)
    (st : BulkState) (user : UserRow) : BulkState :=
  match failV user.id with
  | none =>
    let a := st.approved + 1
    if a % 50 == 0 then
      { st with db := insertApproval st.db user.id, approved := a,
                out := st.out ++ [Out.progress a total] }
    else
      { st with db := insertApproval st.db user.id, approved := a }
  | some e =>
    { st with errors := st.errors + 1,
              logs := st.logs ++ [LogLine.errorApproving user.username e] }

/-- `Command._approve_all_users(batch_size, dry_run)`. -/
def approveAllUsers (db : DB) (batchSize : Int) (dryRun : Bool)
    (failV : Nat → Option String) : CmdResult :=
  let users_to_approve := usersToApprove db
  let total_users := users_to_approve.length
  if total_users = 0 then
    ⟨db, [Out.noUsersNeed], [], none⟩
  else if dryRun then
    ⟨db, [Out.foundUsers total_users, Out.dryRunHeader total_users]
          ++ (users_to_approve.take 10).map (fun u => Out.dashUser u.username)
          ++ (if total_users > 10 then [Out.andMore (total_users - 10)] else []),
      [], none⟩
  else
    let user_ids := users_to_approve.map (fun u => u.id)
    match pyRange3 user_ids.length batchSize with
    | .error e => ⟨db, [Out.foundUsers total_users], [], some e⟩
    | .ok starts =>
      let final := starts.foldl
        (fun st i =>
          let batch_ids := (user_ids.drop i).take batchSize.toNat
          (batchUsers st.db batch_ids).foldl (bulkStep total_users failV) st)
        ⟨db, 0, 0, [Out.foundUsers total_users], []⟩
      ⟨final.db,
        final.out
          ++ (if final.approved % 50 ≠ 0
              then [Out.progress final.approved total_users] else [])
          ++ [Out.completed final.approved final.errors],
        final.logs, none⟩

/-- The parsed command-line options of `approve_id_verification`. -/
structure Options where
  all : Bool
  username : Option String
  batchSize : Int
  dryRun : Bool

/-- Python truthiness of the `--username` option: `None` and the empty string
are falsy. -/
def pyTruthy : Option String → Bool
  | none => false
  | some s => !(s == "")

/-- `User.objects.get(username=username)`, `None` when it raises
`User.DoesNotExist` (usernames are unique). -/
def getUser (db : DB) (name : String) : Option UserRow :=
  db.users.find? (fun u => u.username == name)

/-- `Command.handle(...)`: dispatch on the options exactly as the source
does. -/
def handle (db : DB) (opts : Options) (failV : Nat → Option String) :
    CmdResult :=
  if !opts.all && !pyTruthy opts.username then
    ⟨db, [Out.mustSpecify], [], none⟩
  else if pyTruthy opts.username then
    match getUser db (opts.username.getD "") with
    | some user => approveUserVerification db user opts.dryRun failV
    | none => ⟨db, [Out.userDoesNotExist (opts.username.getD "")], [], none⟩
  else
    approveAllUsers db opts.batchSize opts.dryRun failV

/-- `sync_extended_profile(sender, instance, created)`: on creation,
unconditionally `ExtendedUserProfile.objects.create(user=instance)`.  There is
no exception handling here: a failing insert (oracle `failP`) escapes to the
caller. -/
def syncExtendedProfile (db : DB) (newUser : UserRow) (created : Bool)
    (failP : Nat → Option String) : Except String DB :=
  if created then
    match failP newUser.id with
    | some e => .error e
    | none => .ok { db with profiles := db.profiles ++ [newUser.id] }
  else .ok db

/-- The body of the `try:` block of `set_id_verification_status(user)`: the
validity query (which may itself raise, oracle `failQ`), then the conditional
insert (oracle `failV`). -/
def setIdVerificationBody (db : DB) (user : UserRow) (failQ : Option String)
    (failV : Nat → Option String) : Except String (DB × List LogLine) :=
  match failQ with
  | some e => .error e
  | none =>
    let verifications :=
      db.verifications.filter (validApproval db.cutoff user.id)
    if verifications.isEmpty then
      match failV user.id with
      | some e => .error e
      | none =>
        .ok (insertApproval db user.id, [LogLine.approvedFor user.username])
    else
      .ok (db, [])

/-- `set_id_verification_status(user)`: the body wrapped in the
`try/except Exception` that logs and swallows every failure. -/
def setIdVerificationStatus (db : DB) (user : UserRow) (failQ : Option String)
    (failV : Nat → Option String) : DB × List LogLine :=
  match setIdVerificationBody db user failQ failV with
  | .ok r => r
  | .error e =>
    (db, [LogLine.errorSettingStatus user.username e])

/-- `auto_approve_id_verification_on_registration(sender, instance, created)`. -/
def autoApproveIdVerificationOnRegistration (db : DB) (newUser : UserRow)
    (created : Bool) (failQ : Option String) (failV : Nat → Option String) :
    DB × List LogLine :=
  if created then setIdVerificationStatus db newUser failQ failV
  else (db, [])

/-- The records of the `ManualVerification` table owned by `uid`. -/
def recordsFor (db : DB) (uid : Nat) : List VerificationRecord :=
  db.verifications.filter (fun v => v.user_id == uid)

/-- The approved records of the `ManualVerification` table owned by `uid`. -/
def approvedRecordsFor (db : DB) (uid : Nat) : List VerificationRecord :=
  db.verifications.filter (fun v => v.user_id == uid && v.status == "approved")

/-- The sequence of users for which the non-dry bulk loop attempts an insert,
in attempt order: the concatenation, over the `range(0, len(user_ids),
batch_size)` start offsets, of the re-fetched rows of each slice
`user_ids[i : i + batch_size]`. -/
def bulkAttempts (db : DB) (s : Nat) : List UserRow :=
  let user_ids := (usersToApprove db).map (fun u => u.id)
  ((pyRangeUp user_ids.length s).map
    (fun i => batchUsers db ((user_ids.drop i).take s))).flatten

/-- The progress lines `bulkStep` emits while the `approved_count` counter
runs from `a + 1` to `a + n`: one line per multiple of 50. -/
def progressOut (total : Nat) : Nat → Nat → List Out
  | _, 0 => []
  | a, Nat.succ n =>
    (if (a + 1) % 50 == 0 then [Out.progress (a + 1) total] else [])
      ++ progressOut total (a + 1) n

/-! ### Helper lemmas about the sorting model of `.order_by("id")` -/

theorem insertById_perm (u : UserRow) (l : List UserRow) :
    (insertById u l).Perm (u :: l) := by
  induction l with
  | nil => simp [insertById]
  | cons v vs ih =>
    simp only [insertById]
    split
    · exact List.Perm.refl _
    · exact ((ih.cons v).trans (List.Perm.swap u v vs)).symm.symm

theorem sortById_perm (l : List UserRow) : (sortById l).Perm l := by
  induction l with
  | nil => simp [sortById]
  | cons u us ih =>
    exact (insertById_perm u (sortById us)).trans (ih.cons u)

theorem insertById_of_le (u : UserRow) (l : List UserRow)
    (h : ∀ v ∈ l, u.id ≤ v.id) : insertById u l = u :: l := by
  cases l with
  | nil => rfl
  | cons v vs =>
    simp only [insertById]
    rw [if_pos (h v (List.mem_cons_self v vs))]

theorem sortById_of_sorted (l : List UserRow)
    (h : l.Pairwise (fun a b => a.id ≤ b.id)) : sortById l = l := by
  induction l with
  | nil => rfl
  | cons u us ih =>
    rw [List.pairwise_cons] at h
    simp only [sortById]
    rw [ih h.2, insertById_of_le u us h.1]

/-! ### The batching arithmetic of `range(0, len(user_ids), batch_size)` -/

theorem le_ceilDiv_mul (n s : Nat) (hs : 0 < s) : n ≤ ((n + s - 1) / s) * s := by
  have h1 := Nat.div_add_mod (n + s - 1) s
  have h2 := Nat.mod_lt (n + s - 1) hs
  rw [Nat.mul_comm]
  omega

theorem range_slices_flatten {α : Type} (s : Nat) :
    ∀ (c : Nat) (l : List α), l.length ≤ c * s →
      ((List.range c).map (fun k => (l.drop (k * s)).take s)).flatten = l := by
  intro c
  induction c with
  | zero =>
    intro l hl
    simp only [Nat.zero_mul, Nat.le_zero, List.length_eq_zero] at hl
    subst hl
    simp
  | succ c ih =>
    intro l hl
    rw [List.range_succ_eq_map, List.map_cons, List.flatten_cons, List.map_map]
    have hmap : ((List.range c).map ((fun k => (l.drop (k * s)).take s) ∘ Nat.succ))
        = (List.range c).map (fun k => ((l.drop s).drop (k * s)).take s) := by
      apply List.map_congr_left
      intro k _
      simp only [Function.comp]
      rw [List.drop_drop]
      congr 2
      simp [Nat.succ_mul, Nat.add_comm]
    rw [hmap, ih (l.drop s) ?_]
    · simp [List.take_append_drop]
    · rw [List.length_drop]
      have hmul : (c + 1) * s = c * s + s := by ring
      rw [hmul] at hl
      omega

theorem pyRangeUp_slices_flatten {α : Type} (s : Nat) (hs : 0 < s) (l : List α) :
    ((pyRangeUp l.length s).map (fun i => (l.drop i).take s)).flatten = l := by
  rw [pyRangeUp, List.map_map]
  exact range_slices_flatten s _ l (le_ceilDiv_mul l.length s hs)

/-! ### Re-fetching a slice of ids returns exactly that slice of rows -/

theorem filter_mem_middle (f : UserRow → Nat) :
    ∀ (P M S : List UserRow), ((P ++ M ++ S).map f).Nodup →
      (P ++ M ++ S).filter (fun x => (M.map f).contains (f x)) = M := by
  intro P M S hnd
  rw [List.map_append, List.map_append, List.nodup_append] at hnd
  obtain ⟨hPM, hS, hdisj⟩ := hnd
  rw [List.nodup_append] at hPM
  obtain ⟨hP, hM, hdisjPM⟩ := hPM
  rw [List.filter_append, List.filter_append]
  have hPnil : P.filter (fun x => (M.map f).contains (f x)) = [] := by
    rw [List.filter_eq_nil_iff]
    intro a ha hmem
    rw [List.elem_iff] at hmem
    exact hdisjPM (List.mem_map_of_mem f ha) hmem
  have hMself : M.filter (fun x => (M.map f).contains (f x)) = M := by
    rw [List.filter_eq_self]
    intro a ha
    rw [List.elem_iff]
    exact List.mem_map_of_mem f ha
  have hSnil : S.filter (fun x => (M.map f).contains (f x)) = [] := by
    rw [List.filter_eq_nil_iff]
    intro a ha hmem
    rw [List.elem_iff] at hmem
    exact hdisj (List.mem_append_right _ hmem) (List.mem_map_of_mem f ha)
  rw [hPnil, hMself, hSnil, List.append_nil, List.nil_append]

theorem filter_slice_eq (W : List UserRow)
    (hnd : (W.map (fun u => u.id)).Nodup) (i k : Nat) :
    W.filter (fun u => (((W.map (fun u => u.id)).drop i).take k).contains u.id)
      = (W.drop i).take k := by
  have hdec : W = W.take i ++ ((W.drop i).take k ++ (W.drop i).drop k) := by
    rw [List.take_append_drop, List.take_append_drop]
  have hids : ((W.map (fun u => u.id)).drop i).take k
      = ((W.drop i).take k).map (fun u => u.id) := by
    rw [List.map_take, List.map_drop]
  rw [hids]
  calc W.filter (fun u => (((W.drop i).take k).map (fun u => u.id)).contains u.id)
      = (W.take i ++ ((W.drop i).take k) ++ (W.drop i).drop k).filter
          (fun u => (((W.drop i).take k).map (fun u => u.id)).contains u.id) := by
        rw [List.append_assoc, ← hdec]
    _ = (W.drop i).take k := by
        apply filter_mem_middle
        rw [List.append_assoc, ← hdec]
        exact hnd

/-! ### Characterisation of the inner bulk loop -/

theorem bulkStep_ok (total : Nat) (failV : Nat → Option String) (st : BulkState)
    (u : UserRow) (h : failV u.id = none) :
    bulkStep total failV st u =
      ⟨insertApproval st.db u.id, st.approved + 1, st.errors,
        st.out ++ (if (st.approved + 1) % 50 == 0
                    then [Out.progress (st.approved + 1) total] else []),
        st.logs⟩ := by
  rw [bulkStep, h]
  by_cases h50 : ((st.approved + 1) % 50 == 0) = true
  · simp [h50]
  · simp [h50]

theorem bulkStep_bad (total : Nat) (failV : Nat → Option String) (st : BulkState)
    (u : UserRow) (e : String) (h : failV u.id = some e) :
    bulkStep total failV st u =
      ⟨st.db, st.approved, st.errors + 1, st.out,
        st.logs ++ [LogLine.errorApproving u.username e]⟩ := by
  rw [bulkStep, h]

theorem foldl_bulkStep_db (total : Nat) (failV : Nat → Option String) :
    ∀ (L : List UserRow) (st : BulkState),
      (L.foldl (bulkStep total failV) st).db =
        { st.db with verifications := (st.db.verifications
            ++ (L.filter (fun u => (failV u.id).isNone)).map
                (fun u => ⟨u.id, "approved", st.db.now⟩)) } := by
  intro L
  induction L with
  | nil => intro st; simp
  | cons u L ih =>
    intro st
    rw [List.foldl_cons]
    cases h : failV u.id with
    | none =>
      rw [bulkStep_ok total failV st u h, ih]
      simp [insertApproval, List.filter_cons, h]
    | some e =>
      rw [bulkStep_bad total failV st u e h, ih]
      simp [List.filter_cons, h]

theorem foldl_bulkStep_approved (total : Nat) (failV : Nat → Option String) :
    ∀ (L : List UserRow) (st : BulkState),
      (L.foldl (bulkStep total failV) st).approved =
        st.approved + (L.filter (fun u => (failV u.id).isNone)).length := by
  intro L
  induction L with
  | nil => intro st; simp
  | cons u L ih =>
    intro st
    rw [List.foldl_cons]
    cases h : failV u.id with
    | none =>
      rw [bulkStep_ok total failV st u h, ih]
      simp [List.filter_cons, h]
      omega
    | some e =>
      rw [bulkStep_bad total failV st u e h, ih]
      simp [List.filter_cons, h]

theorem foldl_bulkStep_errors (total : Nat) (failV : Nat → Option String) :
    ∀ (L : List UserRow) (st : BulkState),
      (L.foldl (bulkStep total failV) st).errors =
        st.errors + (L.filter (fun u => (failV u.id).isSome)).length := by
  intro L
  induction L with
  | nil => intro st; simp
  | cons u L ih =>
    intro st
    rw [List.foldl_cons]
    cases h : failV u.id with
    | none =>
      rw [bulkStep_ok total failV st u h, ih]
      simp [List.filter_cons, h]
    | some e =>
      rw [bulkStep_bad total failV st u e h, ih]
      simp [List.filter_cons, h]
      omega

theorem foldl_bulkStep_out (total : Nat) (failV : Nat → Option String) :
    ∀ (L : List UserRow) (st : BulkState),
      (L.foldl (bulkStep total failV) st).out =
        st.out ++ progressOut total st.approved
          (L.filter (fun u => (failV u.id).isNone)).length := by
  intro L
  induction L with
  | nil => intro st; simp [progressOut]
  | cons u L ih =>
    intro st
    rw [List.foldl_cons]
    cases h : failV u.id with
    | none =>
      rw [bulkStep_ok total failV st u h, ih]
      simp only [List.filter_cons, h, Option.isNone_none, if_pos, List.length_cons]
      rw [progressOut]
      simp [List.append_assoc]
    | some e =>
      rw [bulkStep_bad total failV st u e h, ih]
      simp [List.filter_cons, h]

theorem foldl_bulkStep_logs (total : Nat) (failV : Nat → Option String) :
    ∀ (L : List UserRow) (st : BulkState),
      (L.foldl (bulkStep total failV) st).logs =
        st.logs ++ (L.filter (fun u => (failV u.id).isSome)).map
          (fun u => LogLine.errorApproving u.username ((failV u.id).getD "")) := by
  intro L
  induction L with
  | nil => intro st; simp
  | cons u L ih =>
    intro st
    rw [List.foldl_cons]
    cases h : failV u.id with
    | none =>
      rw [bulkStep_ok total failV st u h, ih]
      simp [List.filter_cons, h]
    | some e =>
      rw [bulkStep_bad total failV st u e h, ih]
      simp [List.filter_cons, h, List.append_assoc]

theorem foldl_batches (total : Nat) (failV : Nat → Option String)
    (user_ids : List Nat) (s : Nat) (us : List UserRow) :
    ∀ (starts : List Nat) (st : BulkState), st.db.users = us →
      starts.foldl (fun st i =>
          (batchUsers st.db ((user_ids.drop i).take s)).foldl
            (bulkStep total failV) st) st
      = ((starts.map (fun i =>
            us.filter (fun u => ((user_ids.drop i).take s).contains u.id))).flatten).foldl
          (bulkStep total failV) st := by
  intro starts
  induction starts with
  | nil => intro st _; simp
  | cons i starts ih =>
    intro st h
    rw [List.foldl_cons, List.map_cons, List.flatten_cons, List.foldl_append]
    have hbatch : batchUsers st.db ((user_ids.drop i).take s)
        = us.filter (fun u => ((user_ids.drop i).take s).contains u.id) := by
      rw [batchUsers, h]
    rw [hbatch]
    apply ih
    rw [foldl_bulkStep_db]
    exact h

theorem pyRange3_pos (stop : Nat) (bs : Int) (h : 0 < bs) :
    pyRange3 stop bs = .ok (pyRangeUp stop bs.toNat) := by
  rw [pyRange3, if_neg, if_neg]
  · omega
  · omega

/-- Full characterisation of a non-dry bulk run with a positive batch size:
the final database, output and logs are generated from the attempt sequence
`bulkAttempts`. -/
theorem approveAllUsers_run (db : DB) (bs : Int) (failV : Nat → Option String)
    (hbs : 0 < bs) (hne : usersToApprove db ≠ []) :
    approveAllUsers db bs false failV =
      ⟨{ db with verifications := (db.verifications
            ++ ((bulkAttempts db bs.toNat).filter (fun u => (failV u.id).isNone)).map
                (fun u => ⟨u.id, "approved", db.now⟩)) },
        [Out.foundUsers (usersToApprove db).length]
          ++ progressOut (usersToApprove db).length 0
              ((bulkAttempts db bs.toNat).filter (fun u => (failV u.id).isNone)).length
          ++ (if ((bulkAttempts db bs.toNat).filter
                    (fun u => (failV u.id).isNone)).length % 50 ≠ 0
              then [Out.progress
                  ((bulkAttempts db bs.toNat).filter
                    (fun u => (failV u.id).isNone)).length
                  (usersToApprove db).length]
              else [])
          ++ [Out.completed
                ((bulkAttempts db bs.toNat).filter
                  (fun u => (failV u.id).isNone)).length
                ((bulkAttempts db bs.toNat).filter
                  (fun u => (failV u.id).isSome)).length],
        ((bulkAttempts db bs.toNat).filter (fun u => (failV u.id).isSome)).map
          (fun u => LogLine.errorApproving u.username ((failV u.id).getD "")),
        none⟩ := by
  have htot : ¬((usersToApprove db).length = 0) := by
    rw [List.length_eq_zero]
    exact hne
  have hfold := foldl_batches (usersToApprove db).length failV
      ((usersToApprove db).map (fun u => u.id)) bs.toNat db.users
      (pyRangeUp ((usersToApprove db).map (fun u => u.id)).length bs.toNat)
      ⟨db, 0, 0, [Out.foundUsers (usersToApprove db).length], []⟩ rfl
  have hA : ((pyRangeUp ((usersToApprove db).map (fun u => u.id)).length bs.toNat).map
      (fun i => db.users.filter
        (fun u => ((((usersToApprove db).map (fun u => u.id)).drop i).take
            bs.toNat).contains u.id))).flatten
      = bulkAttempts db bs.toNat := by
    rw [bulkAttempts]
    simp only [batchUsers]
  rw [hA] at hfold
  simp only [approveAllUsers, pyRange3_pos _ bs hbs, if_neg htot, Bool.false_eq_true,
    if_false]
  rw [hfold, foldl_bulkStep_db, foldl_bulkStep_approved, foldl_bulkStep_out,
    foldl_bulkStep_errors, foldl_bulkStep_logs]
  simp [List.append_assoc]

/-! ### The attempt sequence versus the work list -/

theorem nodup_usersToApprove_ids (db : DB)
    (hnd : (db.users.map (fun u => u.id)).Nodup) :
    ((usersToApprove db).map (fun u => u.id)).Nodup := by
  have hperm : (usersToApprove db).Perm
      (db.users.filter (fun u => !((usersWithVerification db).contains u.id))) :=
    sortById_perm _
  have hbnd : ((db.users.filter
      (fun u => !((usersWithVerification db).contains u.id))).map
        (fun u => u.id)).Nodup :=
    ((List.filter_sublist db.users).map (fun u => u.id)).nodup hnd
  exact ((hperm.map (fun u => u.id)).symm).nodup hbnd

theorem flatten_map_perm {β : Type} (f g : β → List UserRow) (L : List β)
    (h : ∀ i ∈ L, (f i).Perm (g i)) :
    ((L.map f).flatten).Perm ((L.map g).flatten) := by
  induction L with
  | nil => simp
  | cons i L ih =>
    simp only [List.map_cons, List.flatten_cons]
    exact (h i (List.mem_cons_self i L)).append
      (ih (fun j hj => h j (List.mem_cons_of_mem i hj)))

theorem slice_subset {x : Nat} (uids : List Nat) (i k : Nat)
    (hx : x ∈ (uids.drop i).take k) : x ∈ uids :=
  ((List.take_sublist k (uids.drop i)).trans (List.drop_sublist i uids)).subset hx

theorem filter_users_unverified (db : DB) (s : List Nat)
    (hs : ∀ x ∈ s, x ∈ (usersToApprove db).map (fun u => u.id)) :
    db.users.filter (fun u => s.contains u.id)
      = (db.users.filter
          (fun u => !((usersWithVerification db).contains u.id))).filter
          (fun u => s.contains u.id) := by
  symm
  rw [List.filter_comm, List.filter_eq_self]
  intro a ha
  rw [List.mem_filter] at ha
  obtain ⟨_, hcont⟩ := ha
  rw [List.elem_iff] at hcont
  have hmem := hs a.id hcont
  rw [List.mem_map] at hmem
  obtain ⟨w, hwW, hwid⟩ := hmem
  have hwbase : w ∈ db.users.filter
      (fun u => !((usersWithVerification db).contains u.id)) :=
    ((sortById_perm _).mem_iff).mp hwW
  rw [List.mem_filter] at hwbase
  rw [← hwid]
  exact hwbase.2

theorem bulkAttempts_perm (db : DB)
    (hnd : (db.users.map (fun u => u.id)).Nodup) (s : Nat) (hs : 0 < s) :
    (bulkAttempts db s).Perm (usersToApprove db) := by
  have hWnd := nodup_usersToApprove_ids db hnd
  have hbase : (usersToApprove db).Perm
      (db.users.filter (fun u => !((usersWithVerification db).contains u.id))) :=
    sortById_perm _
  rw [bulkAttempts]
  simp only [batchUsers]
  have hpt : ∀ i, (db.users.filter
      (fun u => ((((usersToApprove db).map (fun u => u.id)).drop i).take
          s).contains u.id)).Perm (((usersToApprove db).drop i).take s) := by
    intro i
    rw [filter_users_unverified db _
      (fun x hx => slice_subset ((usersToApprove db).map (fun u => u.id)) i s hx)]
    have h1 := (hbase.symm).filter
      (fun u => ((((usersToApprove db).map (fun u => u.id)).drop i).take
          s).contains u.id)
    rw [filter_slice_eq (usersToApprove db) hWnd i s] at h1
    exact h1
  have hflat := flatten_map_perm
    (fun i => db.users.filter
      (fun u => ((((usersToApprove db).map (fun u => u.id)).drop i).take
          s).contains u.id))
    (fun i => ((usersToApprove db).drop i).take s)
    (pyRangeUp ((usersToApprove db).map (fun u => u.id)).length s)
    (fun i _ => hpt i)
  refine hflat.trans ?_
  have := pyRangeUp_slices_flatten s hs (usersToApprove db)
  rw [List.length_map]
  rw [this]

theorem bulkAttempts_eq (db : DB)
    (hsorted : db.users.Pairwise (fun a b => a.id < b.id)) (s : Nat)
    (hs : 0 < s) : bulkAttempts db s = usersToApprove db := by
  have hnd : (db.users.map (fun u => u.id)).Nodup := by
    have := List.pairwise_map.mpr (hsorted.imp (fun h => Nat.ne_of_lt h))
    exact this
  have hWnd := nodup_usersToApprove_ids db hnd
  have hW : usersToApprove db
      = db.users.filter (fun u => !((usersWithVerification db).contains u.id)) := by
    rw [usersToApprove]
    exact sortById_of_sorted _ ((hsorted.filter _).imp (fun h => Nat.le_of_lt h))
  rw [bulkAttempts]
  simp only [batchUsers]
  have hpt : ∀ i, db.users.filter
      (fun u => ((((usersToApprove db).map (fun u => u.id)).drop i).take
          s).contains u.id) = ((usersToApprove db).drop i).take s := by
    intro i
    rw [filter_users_unverified db _
      (fun x hx => slice_subset ((usersToApprove db).map (fun u => u.id)) i s hx)]
    rw [← hW]
    exact filter_slice_eq (usersToApprove db) hWnd i s
  rw [List.map_congr_left (fun i _ => hpt i)]
  rw [List.length_map]
  exact pyRangeUp_slices_flatten s hs (usersToApprove db)

theorem mem_usersWithVerification_of_existing (db : DB) (uid : Nat)
    (hv : existingVerification db uid = true) :
    uid ∈ usersWithVerification db := by
  rw [existingVerification, List.any_eq_true] at hv
  obtain ⟨v, hvmem, hval⟩ := hv
  rw [validApproval] at hval
  simp only [Bool.and_eq_true, beq_iff_eq, decide_eq_true_eq] at hval
  obtain ⟨⟨h1, h2⟩, h3⟩ := hval
  rw [usersWithVerification, List.mem_map]
  refine ⟨v, ?_, h1⟩
  rw [List.mem_filter]
  refine ⟨hvmem, ?_⟩
  simp [h2, h3]

theorem existing_not_in_worklist_ids (db : DB) (uid : Nat)
    (hv : existingVerification db uid = true) :
    uid ∉ (usersToApprove db).map (fun u => u.id) := by
  intro hmem
  rw [List.mem_map] at hmem
  obtain ⟨w, hwW, hwid⟩ := hmem
  have hwbase : w ∈ db.users.filter
      (fun u => !((usersWithVerification db).contains u.id)) :=
    ((sortById_perm _).mem_iff).mp hwW
  rw [List.mem_filter] at hwbase
  have h2 := hwbase.2
  rw [Bool.not_eq_eq_eq_not, Bool.not_true] at h2
  have hmemW : w.id ∈ usersWithVerification db := by
    rw [hwid]
    exact mem_usersWithVerification_of_existing db uid hv
  have h3 : (usersWithVerification db).contains w.id = true := by
    rw [List.elem_iff]
    exact hmemW
  rw [h3] at h2
  exact absurd h2 (by simp)

/-! ### Progress-line bookkeeping -/

theorem progressOut_length (total : Nat) :
    ∀ (n a : Nat), (progressOut total a n).length = (a + n) / 50 - a / 50 := by
  intro n
  induction n with
  | zero => intro a; simp [progressOut]
  | succ n ih =>
    intro a
    rw [progressOut, List.length_append, ih (a + 1)]
    by_cases h : (a + 1) % 50 = 0
    · simp only [h, beq_self_eq_true, if_pos, List.length_cons, List.length_nil]
      omega
    · have hb : ¬(((a + 1) % 50 == 0) = true) := by
        simp [h]
      simp only [if_neg hb, List.length_nil]
      omega

theorem progressOut_filter (total : Nat) :
    ∀ (n a : Nat),
      (progressOut total a n).filter Out.isProgress = progressOut total a n := by
  intro n
  induction n with
  | zero => intro a; simp [progressOut]
  | succ n ih =>
    intro a
    rw [progressOut, List.filter_append, ih (a + 1)]
    by_cases h : (((a + 1) % 50 == 0) = true)
    · simp only [if_pos h]
      rfl
    · simp only [if_neg h]
      rfl

/-! ### Membership in the attempt sequence -/

theorem mem_bulkAttempts_ids (db : DB) (s : Nat) (w : UserRow)
    (hw : w ∈ bulkAttempts db s) :
    w.id ∈ (usersToApprove db).map (fun u => u.id) := by
  rw [bulkAttempts, List.mem_flatten] at hw
  obtain ⟨l, hl, hwl⟩ := hw
  rw [List.mem_map] at hl
  obtain ⟨i, _, hli⟩ := hl
  rw [← hli, batchUsers, List.mem_filter] at hwl
  have hc := hwl.2
  rw [List.elem_iff] at hc
  exact slice_subset _ i s hc

/-! ### The degenerate branches of `_approve_all_users` -/

theorem approveAllUsers_empty (db : DB) (bs : Int) (dryRun : Bool)
    (failV : Nat → Option String) (he : usersToApprove db = []) :
    approveAllUsers db bs dryRun failV = ⟨db, [Out.noUsersNeed], [], none⟩ := by
  simp [approveAllUsers, he]

theorem approveAllUsers_zeroBatch (db : DB) (failV : Nat → Option String)
    (hne : usersToApprove db ≠ []) :
    approveAllUsers db 0 false failV
      = ⟨db, [Out.foundUsers (usersToApprove db).length], [],
          some "range() arg 3 must not be zero"⟩ := by
  have htot : ¬((usersToApprove db).length = 0) := by
    rw [List.length_eq_zero]
    exact hne
  have hr : pyRange3 ((usersToApprove db).map (fun u => u.id)).length 0
      = .error "range() arg 3 must not be zero" := by
    rw [pyRange3, if_pos rfl]
  simp only [approveAllUsers, hr, if_neg htot, Bool.false_eq_true, if_false]

theorem approveAllUsers_negBatch (db : DB) (bs : Int)
    (failV : Nat → Option String) (hbs : bs < 0)
    (hne : usersToApprove db ≠ []) :
    approveAllUsers db bs false failV
      = ⟨db, [Out.foundUsers (usersToApprove db).length, Out.completed 0 0],
          [], none⟩ := by
  have htot : ¬((usersToApprove db).length = 0) := by
    rw [List.length_eq_zero]
    exact hne
  have hr : pyRange3 ((usersToApprove db).map (fun u => u.id)).length bs
      = .ok [] := by
    rw [pyRange3, if_neg (by omega), if_pos hbs]
  simp only [approveAllUsers, hr, if_neg htot, Bool.false_eq_true, if_false]
  norm_num

theorem approveAllUsers_dry (db : DB) (bs : Int) (failV : Nat → Option String)
    (hne : usersToApprove db ≠ []) :
    approveAllUsers db bs true failV
      = ⟨db, [Out.foundUsers (usersToApprove db).length,
              Out.dryRunHeader (usersToApprove db).length]
            ++ ((usersToApprove db).take 10).map (fun u => Out.dashUser u.username)
            ++ (if (usersToApprove db).length > 10
                then [Out.andMore ((usersToApprove db).length - 10)] else []),
          [], none⟩ := by
  have htot : ¬((usersToApprove db).length = 0) := by
    rw [List.length_eq_zero]
    exact hne
  simp only [approveAllUsers, if_neg htot]
  norm_num

/-! ### The claims -/

/-- A sample database used to instantiate witnesses: `alice` (id 1) already
holds an approved record dated 5, at or after the cutoff 3; `bob` (id 2) and
`carol` (id 3) hold none. -/
def sampleDB : DB :=
  ⟨[⟨1, "alice"⟩, ⟨2, "bob"⟩, ⟨3, "carol"⟩], [⟨1, "approved", 5⟩], [], 3, 9⟩

/-- C1: a user who already holds a verification record with status
`"approved"` created at or after the cutoff is never given a new approval
record by any of the three operations: the single-user path only reports
"already verified" and leaves everything unchanged, a non-dry bulk run leaves
that user's record list unchanged, and the registration hook returns the
database untouched. -/
theorem c1_never_reapprove (db : DB) (u : UserRow)
    (hv : existingVerification db u.id = true) :
    (∀ (dryRun : Bool) (failV : Nat → Option String),
        approveUserVerification db u dryRun failV
          = ⟨db, [Out.alreadyVerified u.username], [], none⟩)
  ∧ (∀ (bs : Int) (failV : Nat → Option String),
        recordsFor (approveAllUsers db bs false failV).db u.id
          = recordsFor db u.id)
  ∧ (∀ (failQ : Option String) (failV : Nat → Option String),
        (setIdVerificationStatus db u failQ failV).1 = db) := by
  refine ⟨?_, ?_, ?_⟩
  · intro dryRun failV
    rw [approveUserVerification, if_pos hv]
  · intro bs failV
    by_cases hne : usersToApprove db = []
    · rw [approveAllUsers_empty db bs false failV hne]
    · rcases lt_trichotomy bs 0 with h | h | h
      · rw [approveAllUsers_negBatch db bs failV h hne]
      · subst h
        rw [approveAllUsers_zeroBatch db failV hne]
      · rw [approveAllUsers_run db bs failV h hne]
        simp only [recordsFor]
        rw [List.filter_append]
        have hnil : (((bulkAttempts db bs.toNat).filter
            (fun w => (failV w.id).isNone)).map
            (fun w => (⟨w.id, "approved", db.now⟩ : VerificationRecord))).filter
            (fun v => v.user_id == u.id) = [] := by
          rw [List.filter_eq_nil_iff]
          intro a ha hbeq
          rw [List.mem_map] at ha
          obtain ⟨w, hwmem, hwa⟩ := ha
          have hwA : w ∈ bulkAttempts db bs.toNat :=
            List.mem_of_mem_filter hwmem
          have hid := mem_bulkAttempts_ids db bs.toNat w hwA
          have hnot := existing_not_in_worklist_ids db u.id hv
          rw [← hwa] at hbeq
          have hwid : w.id = u.id := by
            simpa using hbeq
          rw [hwid] at hid
          exact hnot hid
        rw [hnil, List.append_nil]
  · intro failQ failV
    cases failQ with
    | some e => rfl
    | none =>
      have hmem : ∃ v, v ∈ db.verifications.filter (validApproval db.cutoff u.id) := by
        rw [existingVerification, List.any_eq_true] at hv
        obtain ⟨v, hvm, hval⟩ := hv
        exact ⟨v, List.mem_filter.mpr ⟨hvm, hval⟩⟩
      obtain ⟨v, hvf⟩ := hmem
      have hemp : (db.verifications.filter
          (validApproval db.cutoff u.id)).isEmpty = false := by
        cases hcase : db.verifications.filter (validApproval db.cutoff u.id) with
        | nil =>
          rw [hcase] at hvf
          cases hvf
        | cons a l => rfl
      rw [setIdVerificationStatus, setIdVerificationBody]
      simp only [hemp, Bool.false_eq_true, if_false]

/-- Witness for C1: `alice` in `sampleDB` already holds a valid approval, and
none of the three operations gives her a new record. -/
theorem c1_never_reapprove_witness :
    existingVerification sampleDB (⟨1, "alice"⟩ : UserRow).id = true
  ∧ (approveUserVerification sampleDB ⟨1, "alice"⟩ false (fun _ => none)
      = ⟨sampleDB, [Out.alreadyVerified "alice"], [], none⟩
    ∧ recordsFor (approveAllUsers sampleDB 100 false (fun _ => none)).db 1
        = recordsFor sampleDB 1
    ∧ (setIdVerificationStatus sampleDB ⟨1, "alice"⟩ none (fun _ => none)).1
        = sampleDB) := by
  have h := c1_never_reapprove sampleDB ⟨1, "alice"⟩ (by decide)
  exact ⟨by decide, h.1 false (fun _ => none), h.2.1 100 (fun _ => none),
    h.2.2 none (fun _ => none)⟩

/-- C2: with the dry-run flag set, neither the single-user path, nor the bulk
path, nor the dispatching `handle` writes to the database or emits log lines,
and no exception escapes; only console output is produced. -/
theorem c2_dry_run_writes_nothing (db : DB) (u : UserRow) (bs : Int)
    (opts : Options) (failV : Nat → Option String) (h : opts.dryRun = true) :
    ((approveUserVerification db u true failV).db = db
      ∧ (approveUserVerification db u true failV).logs = []
      ∧ (approveUserVerification db u true failV).exn = none)
  ∧ ((approveAllUsers db bs true failV).db = db
      ∧ (approveAllUsers db bs true failV).logs = []
      ∧ (approveAllUsers db bs true failV).exn = none)
  ∧ ((handle db opts failV).db = db
      ∧ (handle db opts failV).logs = []
      ∧ (handle db opts failV).exn = none) := by
  have hA : ∀ (w : UserRow), (approveUserVerification db w true failV).db = db
      ∧ (approveUserVerification db w true failV).logs = []
      ∧ (approveUserVerification db w true failV).exn = none := by
    intro w
    by_cases hex : existingVerification db w.id = true
    · rw [approveUserVerification, if_pos hex]
      exact ⟨rfl, rfl, rfl⟩
    · rw [approveUserVerification, if_neg hex, if_pos rfl]
      exact ⟨rfl, rfl, rfl⟩
  have hAll : ∀ (b : Int), (approveAllUsers db b true failV).db = db
      ∧ (approveAllUsers db b true failV).logs = []
      ∧ (approveAllUsers db b true failV).exn = none := by
    intro b
    by_cases hne : usersToApprove db = []
    · rw [approveAllUsers_empty db b true failV hne]
      exact ⟨rfl, rfl, rfl⟩
    · rw [approveAllUsers_dry db b failV hne]
      exact ⟨rfl, rfl, rfl⟩
  refine ⟨hA u, hAll bs, ?_⟩
  rw [handle]
  by_cases h1 : (!opts.all && !pyTruthy opts.username) = true
  · rw [if_pos h1]
    exact ⟨rfl, rfl, rfl⟩
  · rw [if_neg h1]
    by_cases h2 : pyTruthy opts.username = true
    · rw [if_pos h2]
      cases hg : getUser db (opts.username.getD "") with
      | some user =>
        simp only [hg, h]
        exact hA user
      | none =>
        simp [hg]
    · rw [if_neg h2, h]
      exact hAll opts.batchSize

/-- Witness for C2 in bulk mode over `sampleDB`. -/
theorem c2_dry_run_writes_nothing_witness :
    (⟨true, none, 100, true⟩ : Options).dryRun = true
  ∧ (handle sampleDB ⟨true, none, 100, true⟩ (fun _ => none)).db = sampleDB
  ∧ (handle sampleDB ⟨true, none, 100, true⟩ (fun _ => none)).logs = []
  ∧ (handle sampleDB ⟨true, none, 100, true⟩ (fun _ => none)).exn = none := by
  have h := c2_dry_run_writes_nothing sampleDB ⟨1, "alice"⟩ 100
    ⟨true, none, 100, true⟩ (fun _ => none) rfl
  exact ⟨rfl, h.2.2.1, h.2.2.2.1, h.2.2.2.2⟩

/-- A database whose `auth_user` table is enumerated out of id order (id 2
before id 1) and holds no verification records. -/
def outOfOrderDB : DB := ⟨[⟨2, "bob"⟩, ⟨1, "alice"⟩], [], [], 0, 7⟩

/-- C3 fails as stated: the work list is `[1, 2]` (ascending), but because
`User.objects.filter(id__in=batch_ids)` requests no ordering, the batch of
two users comes back in the table's enumeration order and the two approvals
are attempted (and inserted) for id 2 before id 1 — not in ascending id
order. -/
theorem c3_ascending_counterexample :
    (usersToApprove outOfOrderDB).map (fun u => u.id) = [1, 2]
  ∧ bulkAttempts outOfOrderDB 2 = [⟨2, "bob"⟩, ⟨1, "alice"⟩]
  ∧ ((approveAllUsers outOfOrderDB 2 false (fun _ => none)).db.verifications).map
      (fun v => v.user_id) = [2, 1]
  ∧ (approveAllUsers outOfOrderDB 2 false (fun _ => none)).exn = none := by
  refine ⟨by decide, by decide, by decide, by decide⟩

/-- C3 (amended): for every positive batch size, the non-dry bulk run
attempts an approval for exactly the users of the work list, each exactly
once, and — provided the users table is enumerated in ascending id order —
the attempt sequence is precisely the work list in ascending id order; the
run's inserted records and error logs are generated from that attempt
sequence in order. -/
theorem c3_batches_cover_worklist (db : DB) (bs : Int)
    (failV : Nat → Option String)
    (hsorted : db.users.Pairwise (fun a b => a.id < b.id))
    (hbs : 0 < bs) (hne : usersToApprove db ≠ []) :
    bulkAttempts db bs.toNat = usersToApprove db
  ∧ ((usersToApprove db).map (fun u => u.id)).Pairwise (fun a b => a < b)
  ∧ ((usersToApprove db).map (fun u => u.id)).Nodup
  ∧ (approveAllUsers db bs false failV).db.verifications
      = db.verifications
        ++ ((bulkAttempts db bs.toNat).filter (fun u => (failV u.id).isNone)).map
            (fun u => ⟨u.id, "approved", db.now⟩)
  ∧ (approveAllUsers db bs false failV).logs
      = ((bulkAttempts db bs.toNat).filter (fun u => (failV u.id).isSome)).map
          (fun u => LogLine.errorApproving u.username ((failV u.id).getD "")) := by
  have hnd : (db.users.map (fun u => u.id)).Nodup :=
    List.pairwise_map.mpr (hsorted.imp (fun h => Nat.ne_of_lt h))
  have heq := bulkAttempts_eq db hsorted bs.toNat (by omega)
  have hWnd := nodup_usersToApprove_ids db hnd
  have hW : usersToApprove db
      = db.users.filter (fun u => !((usersWithVerification db).contains u.id)) := by
    rw [usersToApprove]
    exact sortById_of_sorted _ ((hsorted.filter _).imp (fun h => Nat.le_of_lt h))
  have hWsorted : ((usersToApprove db).map (fun u => u.id)).Pairwise
      (fun a b => a < b) := by
    rw [hW]
    exact List.pairwise_map.mpr (hsorted.filter _)
  refine ⟨heq, hWsorted, hWnd, ?_, ?_⟩
  · rw [approveAllUsers_run db bs failV hbs hne]
  · rw [approveAllUsers_run db bs failV hbs hne]

/-- Witness for the amended C3 over `sampleDB` (enumerated in ascending id
order) with batch size 2. -/
theorem c3_batches_cover_worklist_witness :
    sampleDB.users.Pairwise (fun a b => a.id < b.id)
  ∧ usersToApprove sampleDB ≠ []
  ∧ bulkAttempts sampleDB (2 : Int).toNat = usersToApprove sampleDB
  ∧ ((usersToApprove sampleDB).map (fun u => u.id)).Pairwise
      (fun a b => a < b) := by
  have h := c3_batches_cover_worklist sampleDB 2 (fun _ => none) (by decide)
    (by omega) (by decide)
  exact ⟨by decide, by decide, h.1, h.2.1⟩

/-- C9: with a non-empty work list in non-dry-run bulk mode, batch size 0
makes `range` raise before any user is processed (only the "Found N" line was
printed, no log lines, database untouched), while any negative batch size
processes zero users yet still reports completion with approved and error
counts of 0. -/
theorem c9_degenerate_batch_sizes (db : DB) (failV : Nat → Option String)
    (hne : usersToApprove db ≠ []) :
    approveAllUsers db 0 false failV
      = ⟨db, [Out.foundUsers (usersToApprove db).length], [],
          some "range() arg 3 must not be zero"⟩
  ∧ (∀ (bs : Int), bs < 0 →
      approveAllUsers db bs false failV
        = ⟨db, [Out.foundUsers (usersToApprove db).length, Out.completed 0 0],
            [], none⟩) :=
  ⟨approveAllUsers_zeroBatch db failV hne,
    fun bs hbs => approveAllUsers_negBatch db bs failV hbs hne⟩

/-- Witness for C9 over `sampleDB` with batch sizes 0 and -5. -/
theorem c9_degenerate_batch_sizes_witness :
    usersToApprove sampleDB ≠ []
  ∧ approveAllUsers sampleDB 0 false (fun _ => none)
      = ⟨sampleDB, [Out.foundUsers (usersToApprove sampleDB).length], [],
          some "range() arg 3 must not be zero"⟩
  ∧ approveAllUsers sampleDB (-5) false (fun _ => none)
      = ⟨sampleDB, [Out.foundUsers (usersToApprove sampleDB).length,
          Out.completed 0 0], [], none⟩ := by
  have h := c9_degenerate_batch_sizes sampleDB (fun _ => none) (by decide)
  exact ⟨by decide, h.1, h.2 (-5) (by omega)⟩

/-- C10: when both `--all` and a (truthy) username are supplied, the username
wins: `handle` runs the single-user path for that user, identically to a run
without `--all`; the combination is not rejected. -/
theorem c10_username_precedence (db : DB) (opts : Options)
    (failV : Nat → Option String) (hall : opts.all = true)
    (hu : pyTruthy opts.username = true) :
    handle db opts failV
      = (match getUser db (opts.username.getD "") with
         | some user => approveUserVerification db user opts.dryRun failV
         | none => ⟨db, [Out.userDoesNotExist (opts.username.getD "")], [], none⟩)
  ∧ handle db opts failV
      = handle db ⟨false, opts.username, opts.batchSize, opts.dryRun⟩ failV := by
  obtain ⟨al, un, bsz, dr⟩ := opts
  replace hall : al = true := hall
  replace hu : pyTruthy un = true := hu
  subst hall
  constructor
  · simp only [handle]
    simp [hu]
  · simp only [handle]
    simp [hu]

/-- Witness for C10: `--all --username bob` behaves exactly like
`--username bob` alone on `sampleDB`. -/
theorem c10_username_precedence_witness :
    (⟨true, some "bob", 100, false⟩ : Options).all = true
  ∧ pyTruthy (some "bob") = true
  ∧ handle sampleDB ⟨true, some "bob", 100, false⟩ (fun _ => none)
      = handle sampleDB ⟨false, some "bob", 100, false⟩ (fun _ => none) := by
  have h := c10_username_precedence sampleDB ⟨true, some "bob", 100, false⟩
    (fun _ => none) rfl (by decide)
  exact ⟨rfl, by decide, h.2⟩

theorem filter_id_eq_singleton (W : List UserRow) (u : UserRow) :
    (W.map (fun w => w.id)).Nodup → u ∈ W →
      W.filter (fun w => w.id == u.id) = [u] := by
  induction W with
  | nil => intro _ hu; cases hu
  | cons a W ih =>
    intro hnd hu
    rw [List.map_cons, List.nodup_cons] at hnd
    obtain ⟨hna, hndW⟩ := hnd
    rcases List.mem_cons.mp hu with rfl | huW
    · rw [List.filter_cons_of_pos (by simp)]
      have hrest : W.filter (fun w => w.id == u.id) = [] := by
        rw [List.filter_eq_nil_iff]
        intro w hw hbeq
        apply hna
        have hwid : w.id = u.id := by simpa using hbeq
        rw [← hwid]
        exact List.mem_map_of_mem _ hw
      rw [hrest]
    · have hane : (a.id == u.id) = false := by
        rw [beq_eq_false_iff_ne]
        intro haid
        apply hna
        rw [haid]
        exact List.mem_map_of_mem _ huW
      simp only [List.filter_cons, hane, Bool.false_eq_true, if_false]
      exact ih hndW huW

/-- C4: after a non-dry bulk run with a positive batch size over a table with
unique user ids, each work-list user whose insert did not fail gains exactly
one new approved record; per-user failures only bump the error count (the run
still terminates normally, no exception escapes); and the final reported
counts satisfy approved = work-list size − failures. -/
theorem c4_bulk_counts (db : DB) (bs : Int) (failV : Nat → Option String)
    (hnd : (db.users.map (fun u => u.id)).Nodup) (hbs : 0 < bs) :
    (∀ u ∈ usersToApprove db, failV u.id = none →
        approvedRecordsFor (approveAllUsers db bs false failV).db u.id
          = approvedRecordsFor db u.id ++ [⟨u.id, "approved", db.now⟩])
  ∧ (approveAllUsers db bs false failV).exn = none
  ∧ (approveAllUsers db bs false failV).logs.length
      = ((usersToApprove db).filter (fun u => (failV u.id).isSome)).length
  ∧ (usersToApprove db ≠ [] →
      (approveAllUsers db bs false failV).out.getLast?
        = some (Out.completed
            ((usersToApprove db).filter (fun u => (failV u.id).isNone)).length
            ((usersToApprove db).filter (fun u => (failV u.id).isSome)).length))
  ∧ ((usersToApprove db).filter (fun u => (failV u.id).isNone)).length
      = (usersToApprove db).length
        - ((usersToApprove db).filter (fun u => (failV u.id).isSome)).length := by
  have hpartition : (usersToApprove db).length
      = ((usersToApprove db).filter (fun u => (failV u.id).isNone)).length
        + ((usersToApprove db).filter (fun u => (failV u.id).isSome)).length := by
    have h := List.length_eq_length_filter_add
      (l := usersToApprove db) (fun u => (failV u.id).isNone)
    have hcongr : (usersToApprove db).filter (fun u => !(failV u.id).isNone)
        = (usersToApprove db).filter (fun u => (failV u.id).isSome) := by
      apply List.filter_congr
      intro x _
      rw [Option.bnot_isNone]
    rw [hcongr] at h
    exact h
  by_cases hne : usersToApprove db = []
  · refine ⟨?_, ?_, ?_, ?_, ?_⟩
    · intro u hu
      rw [hne] at hu
      cases hu
    · rw [approveAllUsers_empty db bs false failV hne]
    · rw [approveAllUsers_empty db bs false failV hne, hne]
      rfl
    · intro hcon
      exact absurd hne hcon
    · rw [hne]
      rfl
  · have hperm := bulkAttempts_perm db hnd bs.toNat (by omega)
    have hpermok := hperm.filter (fun u => (failV u.id).isNone)
    have hpermbad := hperm.filter (fun u => (failV u.id).isSome)
    have hNok := hpermok.length_eq
    have hNbad := hpermbad.length_eq
    have hWnd := nodup_usersToApprove_ids db hnd
    refine ⟨?_, ?_, ?_, ?_, ?_⟩
    · intro u hu hok
      rw [approveAllUsers_run db bs failV hbs hne]
      simp only [approvedRecordsFor]
      rw [List.filter_append]
      congr 1
      rw [List.filter_map]
      have hpred : ((fun (v : VerificationRecord) =>
            v.user_id == u.id && v.status == "approved") ∘
          (fun (w : UserRow) => (⟨w.id, "approved", db.now⟩ : VerificationRecord)))
          = (fun (w : UserRow) => w.id == u.id) := by
        funext w
        simp
      rw [hpred]
      have hsingle : ((bulkAttempts db bs.toNat).filter
          (fun w => (failV w.id).isNone)).filter (fun w => w.id == u.id)
          = [u] := by
        apply List.perm_singleton.mp
        have hstep := hpermok.filter (fun w => w.id == u.id)
        have hRHS : ((usersToApprove db).filter
            (fun w => (failV w.id).isNone)).filter (fun w => w.id == u.id)
            = [u] := by
          rw [List.filter_comm]
          rw [filter_id_eq_singleton (usersToApprove db) u hWnd hu]
          simp [hok]
        rw [hRHS] at hstep
        exact hstep
      rw [hsingle]
      rfl
    · rw [approveAllUsers_run db bs failV hbs hne]
    · rw [approveAllUsers_run db bs failV hbs hne]
      show (((bulkAttempts db bs.toNat).filter
          (fun u => (failV u.id).isSome)).map
            (fun u => LogLine.errorApproving u.username
              ((failV u.id).getD ""))).length = _
      rw [List.length_map]
      exact hNbad
    · intro _
      rw [approveAllUsers_run db bs failV hbs hne]
      show (([Out.foundUsers (usersToApprove db).length]
          ++ progressOut (usersToApprove db).length 0 _ ++ _) ++ _).getLast?
          = _
      rw [List.getLast?_concat]
      rw [hNok, hNbad]
    · omega

/-- Witness for C4 over `sampleDB` with batch size 1 and an oracle that fails
the insert for `bob` (id 2) but not for `carol` (id 3). -/
theorem c4_bulk_counts_witness :
    (sampleDB.users.map (fun u => u.id)).Nodup
  ∧ (⟨3, "carol"⟩ : UserRow) ∈ usersToApprove sampleDB
  ∧ approvedRecordsFor (approveAllUsers sampleDB 1 false
        (fun i => if i == 2 then some "db error" else none)).db 3
      = approvedRecordsFor sampleDB 3 ++ [⟨3, "approved", 9⟩]
  ∧ (approveAllUsers sampleDB 1 false
        (fun i => if i == 2 then some "db error" else none)).exn = none
  ∧ (approveAllUsers sampleDB 1 false
        (fun i => if i == 2 then some "db error" else none)).logs.length = 1
  ∧ ((usersToApprove sampleDB).filter
        (fun u => ((fun i => if i == 2 then some "db error" else none)
          u.id).isNone)).length
      = (usersToApprove sampleDB).length
        - ((usersToApprove sampleDB).filter
            (fun u => ((fun i => if i == 2 then some "db error" else none)
              u.id).isSome)).length := by
  have h := c4_bulk_counts sampleDB 1
    (fun i => if i == 2 then some "db error" else none) (by decide) (by omega)
  refine ⟨by decide, by decide,
    h.1 ⟨3, "carol"⟩ (by decide) (by decide), h.2.1, ?_, h.2.2.2.2⟩
  rw [h.2.2.1]
  decide

/-- C5: in a non-dry bulk run with N successful approvals, the progress lines
of the output are exactly one line per multiple of 50 reached by the running
approved count (in order, as `progressOut` generates them), followed by
exactly one trailing progress line if and only if N is not a multiple of 50
(which entails N > 0); their number is `N / 50` plus one for the trailer, and
the reported approved count is that same N. -/
theorem c5_progress_reporting (db : DB) (bs : Int) (failV : Nat → Option String)
    (hbs : 0 < bs) (hne : usersToApprove db ≠ []) :
    (approveAllUsers db bs false failV).out.filter Out.isProgress
      = progressOut (usersToApprove db).length 0
          ((bulkAttempts db bs.toNat).filter (fun u => (failV u.id).isNone)).length
        ++ (if ((bulkAttempts db bs.toNat).filter
                (fun u => (failV u.id).isNone)).length % 50 = 0
            then ([] : List Out)
            else [Out.progress
                ((bulkAttempts db bs.toNat).filter
                  (fun u => (failV u.id).isNone)).length
                (usersToApprove db).length])
  ∧ ((approveAllUsers db bs false failV).out.filter Out.isProgress).length
      = ((bulkAttempts db bs.toNat).filter
          (fun u => (failV u.id).isNone)).length / 50
        + (if ((bulkAttempts db bs.toNat).filter
              (fun u => (failV u.id).isNone)).length % 50 = 0 then 0 else 1)
  ∧ (approveAllUsers db bs false failV).out.getLast?
      = some (Out.completed
          ((bulkAttempts db bs.toNat).filter
            (fun u => (failV u.id).isNone)).length
          ((bulkAttempts db bs.toNat).filter
            (fun u => (failV u.id).isSome)).length) := by
  have hrun := approveAllUsers_run db bs failV hbs hne
  have h1 : (approveAllUsers db bs false failV).out.filter Out.isProgress
      = progressOut (usersToApprove db).length 0
          ((bulkAttempts db bs.toNat).filter (fun u => (failV u.id).isNone)).length
        ++ (if ((bulkAttempts db bs.toNat).filter
                (fun u => (failV u.id).isNone)).length % 50 = 0
            then ([] : List Out)
            else [Out.progress
                ((bulkAttempts db bs.toNat).filter
                  (fun u => (failV u.id).isNone)).length
                (usersToApprove db).length]) := by
    rw [hrun]
    by_cases h : ((bulkAttempts db bs.toNat).filter
        (fun u => (failV u.id).isNone)).length % 50 = 0
    · simp [h, List.filter_append, progressOut_filter, Out.isProgress]
    · simp [h, List.filter_append, progressOut_filter, Out.isProgress]
  refine ⟨h1, ?_, ?_⟩
  · rw [h1, List.length_append, progressOut_length]
    by_cases h : ((bulkAttempts db bs.toNat).filter
        (fun u => (failV u.id).isNone)).length % 50 = 0
    · simp only [h, if_pos]
      simp
    · simp only [if_neg h]
      simp only [List.length_cons, List.length_nil]
      omega
  · rw [hrun]
    show (([Out.foundUsers _] ++ progressOut _ 0 _ ++ _) ++ _).getLast? = _
    rw [List.getLast?_concat]

/-- Witness for C5 over `sampleDB` with batch size 5 and no failures: two
successful approvals, so no multiple of 50 is reached and exactly one
trailing progress line `2/2` is printed. -/
theorem c5_progress_reporting_witness :
    usersToApprove sampleDB ≠ []
  ∧ (approveAllUsers sampleDB 5 false (fun _ => none)).out.filter Out.isProgress
      = [Out.progress 2 2]
  ∧ ((approveAllUsers sampleDB 5 false (fun _ => none)).out.filter
      Out.isProgress).length = 1
  ∧ (approveAllUsers sampleDB 5 false (fun _ => none)).out.getLast?
      = some (Out.completed 2 0) := by
  have h := c5_progress_reporting sampleDB 5 (fun _ => none) (by omega) (by decide)
  refine ⟨by decide, ?_, ?_, ?_⟩
  · rw [h.1]
    decide
  · rw [h.2.1]
    decide
  · rw [h.2.2]
    decide

/-- C6: every exception raised inside the registration-hook approval body
(the validity query or the insert) is caught: the hook returns normally with
the database untouched and exactly one error-level log line carrying the
username and the exception text. -/
theorem c6_hook_swallows_exceptions (db : DB) (u : UserRow)
    (failQ : Option String) (failV : Nat → Option String) (e : String)
    (h : setIdVerificationBody db u failQ failV = .error e) :
    setIdVerificationStatus db u failQ failV
      = (db, [LogLine.errorSettingStatus u.username e])
  ∧ autoApproveIdVerificationOnRegistration db u true failQ failV
      = (db, [LogLine.errorSettingStatus u.username e])
  ∧ (LogLine.errorSettingStatus u.username e).level = Level.levelError := by
  have h1 : setIdVerificationStatus db u failQ failV
      = (db, [LogLine.errorSettingStatus u.username e]) := by
    rw [setIdVerificationStatus, h]
  refine ⟨h1, ?_, rfl⟩
  rw [autoApproveIdVerificationOnRegistration, if_pos rfl]
  exact h1

/-- Witness for C6: a failing validity query for `bob` is swallowed and
logged. -/
theorem c6_hook_swallows_exceptions_witness :
    setIdVerificationBody sampleDB ⟨2, "bob"⟩ (some "connection lost")
        (fun _ => none) = .error "connection lost"
  ∧ setIdVerificationStatus sampleDB ⟨2, "bob"⟩ (some "connection lost")
        (fun _ => none)
      = (sampleDB, [LogLine.errorSettingStatus "bob" "connection lost"])
  ∧ autoApproveIdVerificationOnRegistration sampleDB ⟨2, "bob"⟩ true
        (some "connection lost") (fun _ => none)
      = (sampleDB, [LogLine.errorSettingStatus "bob" "connection lost"]) := by
  have h := c6_hook_swallows_exceptions sampleDB ⟨2, "bob"⟩
    (some "connection lost") (fun _ => none) "connection lost" rfl
  exact ⟨rfl, h.1, h.2.1⟩

/-- C7: with neither `--all` nor a username the command only prints the
styled usage error and returns normally without touching the database; with a
username naming no existing user it only prints the styled not-found error
and returns normally without touching the database. -/
theorem c7_usage_and_notfound_errors (db : DB) (opts : Options) (name : String)
    (failV : Nat → Option String) :
    (opts.all = false → opts.username = none →
        handle db opts failV = ⟨db, [Out.mustSpecify], [], none⟩
          ∧ Out.mustSpecify.style = Style.styleError)
  ∧ (opts.username = some name → pyTruthy opts.username = true →
      getUser db name = none →
        handle db opts failV = ⟨db, [Out.userDoesNotExist name], [], none⟩
          ∧ (Out.userDoesNotExist name).style = Style.styleError) := by
  obtain ⟨al, un, bsz, dr⟩ := opts
  constructor
  · intro hall hun
    replace hall : al = false := hall
    replace hun : un = none := hun
    subst hall
    subst hun
    constructor
    · simp [handle, pyTruthy]
    · rfl
  · intro hun htr hget
    replace hun : un = some name := hun
    replace htr : pyTruthy un = true := htr
    subst hun
    constructor
    · simp only [handle]
      simp [htr, hget]
    · rfl

/-- Witness for C7: missing selection criteria, and the unknown user
`"dave"`, over `sampleDB`. -/
theorem c7_usage_and_notfound_errors_witness :
    (handle sampleDB ⟨false, none, 100, false⟩ (fun _ => none)
        = ⟨sampleDB, [Out.mustSpecify], [], none⟩
      ∧ Out.mustSpecify.style = Style.styleError)
  ∧ (getUser sampleDB "dave" = none
      ∧ handle sampleDB ⟨false, some "dave", 100, false⟩ (fun _ => none)
          = ⟨sampleDB, [Out.userDoesNotExist "dave"], [], none⟩
      ∧ (Out.userDoesNotExist "dave").style = Style.styleError) := by
  have h1 := (c7_usage_and_notfound_errors sampleDB ⟨false, none, 100, false⟩
    "dave" (fun _ => none)).1 rfl rfl
  have h2 := (c7_usage_and_notfound_errors sampleDB
    ⟨false, some "dave", 100, false⟩ "dave" (fun _ => none)).2 rfl (by decide)
    (by decide)
  exact ⟨h1, by decide, h2.1, h2.2⟩

/-- C8: the profile-sync handler performs no exception handling — a failing
profile insert on a user-created event propagates to the caller as an
exception — unlike the approval hook, which on the same kind of insert
failure swallows the exception and merely logs it. -/
theorem c8_profile_sync_propagates (db : DB) (u : UserRow)
    (failP : Nat → Option String) (e : String) (hp : failP u.id = some e)
    (hex : existingVerification db u.id = false) :
    syncExtendedProfile db u true failP = Except.error e
  ∧ setIdVerificationStatus db u none failP
      = (db, [LogLine.errorSettingStatus u.username e]) := by
  constructor
  · rw [syncExtendedProfile, if_pos rfl, hp]
  · have hemp : (db.verifications.filter
        (validApproval db.cutoff u.id)).isEmpty = true := by
      rw [List.isEmpty_iff, List.filter_eq_nil_iff]
      intro v hv hval
      rw [existingVerification] at hex
      exact absurd hval (List.any_eq_false.mp hex v hv)
    have hbody : setIdVerificationBody db u none failP = .error e := by
      rw [setIdVerificationBody]
      simp [hemp, hp]
    rw [setIdVerificationStatus, hbody]

/-- Witness for C8: a failing insert for `bob` crashes the profile-sync
handler but is swallowed by the approval hook. -/
theorem c8_profile_sync_propagates_witness :
    (fun (_ : Nat) => some "disk full") (2 : Nat) = some "disk full"
  ∧ existingVerification sampleDB 2 = false
  ∧ syncExtendedProfile sampleDB ⟨2, "bob"⟩ true (fun _ => some "disk full")
      = Except.error "disk full"
  ∧ setIdVerificationStatus sampleDB ⟨2, "bob"⟩ none
        (fun _ => some "disk full")
      = (sampleDB, [LogLine.errorSettingStatus "bob" "disk full"]) := by
  have h := c8_profile_sync_propagates sampleDB ⟨2, "bob"⟩
    (fun _ => some "disk full") "disk full" rfl (by decide)
  exact ⟨rfl, by decide, h.1, h.2⟩
